import Mathlib

/-!
Verification of the medicine-availability search engine.

The embedding follows the TypeScript source file that implements the store,
registrar and search logic.  Hidden store reads/writes (localStorage) are made
explicit by passing the stored collections in and returning the updated ones.
JavaScript objects used as string-keyed maps are modelled as association lists
that remember insertion order; all key operations act on the first matching
entry, which coincides with object semantics (keys are unique in a JS object).
Prices and the already-rounded distances are modelled as rationals; the
haversine formula itself, being transcendental, is modelled over the reals.
-/

attribute [local semireducible] Rat.add Rat.mul Rat.sub Rat.inv Rat.ofScientific

/-- Lower-casing of a string character by character, the behaviour of
`String.prototype.toLowerCase()` on the ASCII names this program stores. -/
def toLowerStr (s : String) : String := ⟨s.data.map Char.toLower⟩

/-- StockStatus enumeration from the source (`In Stock`, `Low Stock`, `Out of Stock`). -/
inductive StockStatus where
  | InStock
  | LowStock
  | OutOfStock
deriving DecidableEq, Repr

/-- Per-(medicine, pharmacy) inventory fact: `{pharmacyId, price, stock}`. -/
structure PharmacyStockInfo where
  pharmacyId : Nat
  price : ℚ
  stock : StockStatus
deriving DecidableEq, Repr

/-- The global inventory object: lower-cased medicine name to record list,
modelled as an insertion-ordered association list. -/
abbrev GlobalInventory := List (String × List PharmacyStockInfo)

/-- An item handed to the upsert; `stock` is optional because the caller may
supply a falsy value, in which case the upsert defaults it (`item.stock || InStock`). -/
structure InventoryItem where
  medicineName : String
  price : ℚ
  stock : Option StockStatus
deriving DecidableEq, Repr

/-- Body of the per-item upsert on one medicine list: `findIndex` on
`pharmacyId`; when found, overwrite that record's `price` and `stock` in
place; otherwise `push` a new record at the end.  (Starting from the empty
list this also covers the `globalInventory[medicineKey] = []` branch.) -/
def upsertRecord (pharmacyId : Nat) (price : ℚ) (stock : StockStatus) :
    List PharmacyStockInfo → List PharmacyStockInfo
  | [] => [{ pharmacyId := pharmacyId, price := price, stock := stock }]
  | r :: rs =>
    if r.pharmacyId == pharmacyId then { r with price := price, stock := stock } :: rs
    else r :: upsertRecord pharmacyId price stock rs

/-- Upsert of one item into the inventory object: operate on the entry of
`key` in place if present, else add the key (at the end, as JS object
assignment does) with the list produced from the empty list. -/
def upsertKey (key : String) (pharmacyId : Nat) (price : ℚ) (stock : StockStatus) :
    GlobalInventory → GlobalInventory
  | [] => [(key, upsertRecord pharmacyId price stock [])]
  | (k, l) :: rest =>
    if k == key then (k, upsertRecord pharmacyId price stock l) :: rest
    else (k, l) :: upsertKey key pharmacyId price stock rest

/-- `updateGlobalInventory(pharmacyId, items)` from the source: a `forEach`
over the items, each lower-casing its medicine name and upserting by
`pharmacyId`, with `stock` defaulted to `InStock` when absent/falsy.  The
final `saveGlobalInventory` is the returned value. -/
def updateGlobalInventory (pharmacyId : Nat) (items : List InventoryItem)
    (inv : GlobalInventory) : GlobalInventory :=
  items.foldl (fun acc item =>
    upsertKey (toLowerStr item.medicineName) pharmacyId item.price
      (item.stock.getD StockStatus.InStock) acc) inv

/-- Read of `globalInventory[key]`: the first (i.e. unique) entry for the key. -/
def lookupKey (inv : GlobalInventory) (key : String) : Option (List PharmacyStockInfo) :=
  (inv.find? (fun e => e.1 == key)).map (fun e => e.2)

/-- `getPharmaciesForMedicine(medicineName)`: `globalInventory[key] || []`
after lower-casing. -/
def getPharmaciesForMedicine (inv : GlobalInventory) (medicineName : String) :
    List PharmacyStockInfo :=
  (lookupKey inv (toLowerStr medicineName)).getD []

/-- Overwrite the `stock` of the record found by `findIndex` on `pharmacyId`
(first match); identity when no record matches. -/
def setStockOfRecord (pharmacyId : Nat) (stock : StockStatus) :
    List PharmacyStockInfo → List PharmacyStockInfo
  | [] => []
  | r :: rs =>
    if r.pharmacyId == pharmacyId then { r with stock := stock } :: rs
    else r :: setStockOfRecord pharmacyId stock rs

/-- Replace the list stored under `key` (first matching entry), keeping every
other entry and the key order intact. -/
def replaceKey (key : String) (newList : List PharmacyStockInfo) :
    GlobalInventory → GlobalInventory
  | [] => []
  | (k, l) :: rest =>
    if k == key then (k, newList) :: rest else (k, l) :: replaceKey key newList rest

/-- `updateStockStatusInGlobalInventory(pharmacyId, medicineName, stock)`:
when the medicine key exists and `findIndex` on `pharmacyId` succeeds, the
record's `stock` is overwritten and the store saved; otherwise nothing is
written and the stored inventory is returned as it was. -/
def updateStockStatusInGlobalInventory (pharmacyId : Nat) (medicineName : String)
    (stock : StockStatus) (inv : GlobalInventory) : GlobalInventory :=
  let medicineKey := toLowerStr medicineName
  match lookupKey inv medicineKey with
  | none => inv
  | some l =>
    if l.any (fun r => r.pharmacyId == pharmacyId) then
      replaceKey medicineKey (setStockOfRecord pharmacyId stock l) inv
    else inv

/-- Drop the entry stored under `key` (first matching entry). -/
def deleteKeyEntry (key : String) : GlobalInventory → GlobalInventory
  | [] => []
  | (k, l) :: rest => if k == key then rest else (k, l) :: deleteKeyEntry key rest

/-- `deleteFromGlobalInventory(pharmacyId, medicineName)`: filter the
records for the lower-cased key to those of other pharmacies; when the
filtered list is empty, `delete` the key itself, otherwise store the
filtered list. -/
def deleteFromGlobalInventory (pharmacyId : Nat) (medicineName : String)
    (inv : GlobalInventory) : GlobalInventory :=
  let medicineKey := toLowerStr medicineName
  match lookupKey inv medicineKey with
  | none => inv
  | some l =>
    let filtered := l.filter (fun r => !(r.pharmacyId == pharmacyId))
    if filtered.isEmpty then deleteKeyEntry medicineKey inv
    else replaceKey medicineKey filtered inv

/-- Well-formedness of the inventory object: keys are pairwise distinct (true
of every JS object) and each medicine list holds at most one record per
`pharmacyId` (the store invariant). -/
def InvWF (inv : GlobalInventory) : Prop :=
  inv.Pairwise (fun a b => a.1 ≠ b.1) ∧
    ∀ e ∈ inv, e.2.Pairwise (fun r s => r.pharmacyId ≠ s.pharmacyId)

/-- Base pharmacy record (`Omit<Pharmacy, search-only fields>`). -/
structure BasePharmacy where
  id : Nat
  name : String
  address : String
  phone : String
  lat : ℚ
  lon : ℚ
deriving DecidableEq, Repr

/-- Full `Pharmacy` record including the transient search fields. -/
structure Pharmacy where
  id : Nat
  name : String
  address : String
  phone : String
  lat : ℚ
  lon : ℚ
  distance : ℚ
  price : ℚ
  priceUnit : String
  stock : StockStatus
  isBestOption : Bool
deriving DecidableEq, Repr

/-- Projection of a full record onto its base fields, as done by the
destructuring picks in the source. -/
def Pharmacy.base (p : Pharmacy) : BasePharmacy :=
  { id := p.id, name := p.name, address := p.address, phone := p.phone,
    lat := p.lat, lon := p.lon }

/-- The verified seed data set from the source, coordinates exact. -/
def VERIFIED_PHARMACIES_IN_BANGALORE : List BasePharmacy :=
  [ { id := 21, name := "Apollo Pharmacy", address := "Mysore Road, Kengeri Satellite Town", phone := "080-2848-1122", lat := 12.9189, lon := 77.4856 },
    { id := 22, name := "Medplus Pharmacy", address := "Kengeri Main Rd, Opposite Kengeri Bus Terminal", phone := "080-2848-3344", lat := 12.9155, lon := 77.4808 },
    { id := 30, name := "Sri Maruthi Pharma", address := "1st Main Road, Kengeri Upanagara", phone := "080-2848-5566", lat := 12.9213, lon := 77.4842 },
    { id := 31, name := "HealthFirst Pharmacy", address := "Kommaghatta Main Rd, Kengeri Hobli", phone := "080-2848-7788", lat := 12.9252, lon := 77.4759 },
    { id := 23, name := "Apollo Pharmacy", address := "Uttarahalli Main Rd, Chikkalasandra", phone := "080-2673-5050", lat := 12.9077, lon := 77.5451 },
    { id := 24, name := "Sri Sai Medical & General Stores", address := "Subramanyapura Main Road", phone := "080-2639-1212", lat := 12.9015, lon := 77.5490 },
    { id := 32, name := "MedPlus Pharmacy", address := "Dr Vishnuvardhan Rd, AGS Layout", phone := "080-2639-4455", lat := 12.9058, lon := 77.5401 },
    { id := 33, name := "Jan Aushadhi Kendra", address := "Padmanabhanagar, Near Uttarahalli", phone := "080-2639-8899", lat := 12.9125, lon := 77.5523 },
    { id := 25, name := "Apollo Pharmacy", address := "Near RR Nagar Arch, Mysore Road", phone := "080-2860-9090", lat := 12.9265, lon := 77.5188 },
    { id := 26, name := "Medplus Pharmacy", address := "8th Cross, BEML Layout, RR Nagar", phone := "080-2860-7070", lat := 12.9303, lon := 77.5102 },
    { id := 27, name := "Dava Discount", address := "Ideal Homes Township, RR Nagar", phone := "080-2861-1234", lat := 12.9331, lon := 77.5145 },
    { id := 34, name := "Apollo Pharmacy - BEML Layout", address := "9th Main Rd, BEML Layout, RR Nagar", phone := "080-2860-3030", lat := 12.9298, lon := 77.5113 },
    { id := 18, name := "Apollo Pharmacy", address := "24th Main Rd, Banashankari 2nd Stage", phone := "080-2671-5555", lat := 12.9251, lon := 77.5469 },
    { id := 28, name := "Wellness Forever", address := "Outer Ring Rd, Banashankari 3rd Stage", phone := "080-2679-8899", lat := 12.9157, lon := 77.5571 },
    { id := 29, name := "MedPlus Pharmacy", address := "Kathriguppe Main Rd, Banashankari 3rd Stage", phone := "080-2672-2200", lat := 12.9105, lon := 77.5603 },
    { id := 36, name := "Sri Guru Medicals", address := "Near BDA Complex, BSK 2nd Stage", phone := "080-2671-8888", lat := 12.9285, lon := 77.5504 },
    { id := 37, name := "Vivek Pharma", address := "Kadirenahalli Cross, Banashankari", phone := "080-2671-9999", lat := 12.9193, lon := 77.5620 },
    { id := 1, name := "Apollo Pharmacy - Jayanagar", address := "Jayanagar 9th Block, Bangalore", phone := "080-2663-0919", lat := 12.9248, lon := 77.5843 },
    { id := 2, name := "Wellness Forever - Koramangala", address := "Koramangala 4th Block, Bangalore", phone := "080-4110-2222", lat := 12.9345, lon := 77.6264 },
    { id := 3, name := "MedPlus Pharmacy - Indiranagar", address := "Indiranagar, 100 Feet Rd, Bangalore", phone := "080-4092-7575", lat := 12.9784, lon := 77.6408 } ]

/-- `getCombinedPharmacies()`: the seed set first, then the dynamic entries
whose id does not collide with a seed id, each reduced to base fields. -/
def getCombinedPharmacies (dynamicPharmacies : List Pharmacy) : List BasePharmacy :=
  let verifiedIds := VERIFIED_PHARMACIES_IN_BANGALORE.map (fun p => p.id)
  let uniqueDynamicPharmacies :=
    dynamicPharmacies.filter (fun p => !(verifiedIds.contains p.id))
  VERIFIED_PHARMACIES_IN_BANGALORE ++ uniqueDynamicPharmacies.map Pharmacy.base

/-- Owner details handed to registration. -/
structure PharmacyOwner where
  name : String
  phone : String
  address : String
deriving DecidableEq, Repr

/-- A latitude/longitude pair as stored with a pharmacy. -/
structure Location where
  lat : ℚ
  lon : ℚ
deriving DecidableEq, Repr

/-- `registerOrGetPharmacy(details, location)`: case-insensitive name lookup
over the combined set; on a hit the existing base record is returned and the
dynamic collection is untouched; on a miss a new pharmacy with
id = `Math.max(...dynamicIds, ...verifiedIds, 1000) + 1` is built from the
owner details and location, pushed onto the dynamic collection, and the whole
updated collection is saved.  The pair returned is (result, saved dynamic
collection). -/
def registerOrGetPharmacy (details : PharmacyOwner) (location : Location)
    (dynamicPharmacies : List Pharmacy) : BasePharmacy × List Pharmacy :=
  let allPharmacies := getCombinedPharmacies dynamicPharmacies
  match allPharmacies.find? (fun p => toLowerStr p.name == toLowerStr details.name) with
  | some existingPharmacy => (existingPharmacy, dynamicPharmacies)
  | none =>
    let maxId := (dynamicPharmacies.map (fun p => p.id) ++
      VERIFIED_PHARMACIES_IN_BANGALORE.map (fun p => p.id)).foldl max 1000
    let newPharmacy : Pharmacy :=
      { id := maxId + 1, name := details.name, address := details.address,
        phone := details.phone, lat := location.lat, lon := location.lon,
        distance := 0, price := 0, priceUnit := "", stock := StockStatus.OutOfStock,
        isBestOption := false }
    (newPharmacy.base, dynamicPharmacies ++ [newPharmacy])

/-- Lookup in the `Map` the search builds from the inventory records: a JS
`Map` built from a pair list keeps the last pair for a duplicated key. -/
def mapLookup (entries : List PharmacyStockInfo) (pharmacyId : Nat) :
    Option PharmacyStockInfo :=
  entries.reverse.find? (fun r => r.pharmacyId == pharmacyId)

/-- Step 2 of the search: enrich one directory entry with its computed
distance and, when an inventory record exists, its price and stock;
otherwise synthesize price 0, unit `-`, `OutOfStock`. -/
def enrichPharmacy (distance : ℚ) (entries : List PharmacyStockInfo)
    (p : BasePharmacy) : Pharmacy :=
  match mapLookup entries p.id with
  | some e =>
    { id := p.id, name := p.name, address := p.address, phone := p.phone,
      lat := p.lat, lon := p.lon, distance := distance, price := e.price,
      priceUnit := "per strip", stock := e.stock, isBestOption := false }
  | none =>
    { id := p.id, name := p.name, address := p.address, phone := p.phone,
      lat := p.lat, lon := p.lon, distance := distance, price := 0,
      priceUnit := "-", stock := StockStatus.OutOfStock, isBestOption := false }

/-- One step of the best-option reduction, exactly the two threshold rules of
the source loop. -/
def bestStep (best : Option Pharmacy) (p : Pharmacy) : Option Pharmacy :=
  match best with
  | none => some p
  | some b =>
    if p.distance < b.distance ∧ p.price < b.price + 10 then some p
    else if p.price < b.price ∧ p.distance < b.distance + 2 then some p
    else some b

/-- The `forEach` accumulation of `bestOption` over the result list. -/
def pickBest (results : List Pharmacy) : Option Pharmacy :=
  results.foldl bestStep none

/-- JS `findIndex`, returning the first index satisfying the test. -/
def findIndex (pred : α → Bool) : List α → Option Nat
  | [] => none
  | x :: xs => if pred x then some 0 else (findIndex pred xs).map (fun i => i + 1)

/-- In-place update of the element at one index, identity out of range. -/
def modifyAt (f : Pharmacy → Pharmacy) : Nat → List Pharmacy → List Pharmacy
  | _, [] => []
  | 0, p :: ps => f p :: ps
  | n + 1, p :: ps => p :: modifyAt f n ps

/-- Step 4 of the search: when a best option was picked, flag
`isBestOption = true` on the result found by id lookup. -/
def markBest (results : List Pharmacy) : List Pharmacy :=
  match pickBest results with
  | none => results
  | some b =>
    match findIndex (fun p => p.id == b.id) results with
    | none => results
    | some i => modifyAt (fun p => { p with isBestOption := true }) i results

/-- `findNearbyPharmacies(userLocation, medicineName)`.  The stored
collections are explicit arguments, and `distFn` stands for the computed
`parseFloat(haversineDistance(userLocation, pharmacy).toFixed(1))` of the
source, i.e. the one-decimal-rounded distance for each directory entry. -/
def findNearbyPharmacies (distFn : BasePharmacy → ℚ) (inv : GlobalInventory)
    (dynamicPharmacies : List Pharmacy) (medicineName : String) : List Pharmacy :=
  let pharmaciesWithStock := getPharmaciesForMedicine inv medicineName
  let allPharmacies := getCombinedPharmacies dynamicPharmacies
  let allPharmaciesWithDetails :=
    allPharmacies.map (fun p => enrichPharmacy (distFn p) pharmaciesWithStock p)
  let nearbyPharmacies :=
    allPharmaciesWithDetails.insertionSort (fun a b => a.distance ≤ b.distance)
  let availablePharmacies :=
    nearbyPharmacies.filter (fun p => p.stock == StockStatus.InStock)
  let results := availablePharmacies.take 10
  markBest results

instance (inv : GlobalInventory) : Decidable (InvWF inv) := by
  unfold InvWF
  infer_instance

instance : IsTotal Pharmacy (fun a b => a.distance ≤ b.distance) :=
  ⟨fun a b => le_total a.distance b.distance⟩

instance : IsTrans Pharmacy (fun a b => a.distance ≤ b.distance) :=
  ⟨fun _ _ _ h₁ h₂ => le_trans h₁ h₂⟩

/-- The pharmacy record built in the not-found branch of
`registerOrGetPharmacy`, named here so theorems can refer to it. -/
def mkNewPharmacy (details : PharmacyOwner) (location : Location)
    (dynamicPharmacies : List Pharmacy) : Pharmacy :=
  { id := (dynamicPharmacies.map (fun p => p.id) ++
      VERIFIED_PHARMACIES_IN_BANGALORE.map (fun p => p.id)).foldl max 1000 + 1,
    name := details.name, address := details.address, phone := details.phone,
    lat := location.lat, lon := location.lon, distance := 0, price := 0,
    priceUnit := "", stock := StockStatus.OutOfStock, isBestOption := false }

/-- The sorted, in-stock, truncated result list of the search, before the
best-option flag is applied. -/
def searchResults (distFn : BasePharmacy → ℚ) (inv : GlobalInventory)
    (dynamicPharmacies : List Pharmacy) (medicineName : String) : List Pharmacy :=
  ((((getCombinedPharmacies dynamicPharmacies).map
    (fun p => enrichPharmacy (distFn p) (getPharmaciesForMedicine inv medicineName) p)).insertionSort
      (fun a b => a.distance ≤ b.distance)).filter
        (fun p => p.stock == StockStatus.InStock)).take 10

/-- Modelled from the spec: the variant of the best-option fold that applies
rule (b) alone (cheaper and less than 2 km farther), used to state the
refinement that rule (a) never fires on a distance-sorted list. -/
def bestStepRuleB (best : Option Pharmacy) (p : Pharmacy) : Option Pharmacy :=
  match best with
  | none => some p
  | some b =>
    if p.price < b.price ∧ p.distance < b.distance + 2 then some p else some b

/-- Modelled from the spec: the rule-(b)-only best-option selection. -/
def pickBestRuleB (results : List Pharmacy) : Option Pharmacy :=
  results.foldl bestStepRuleB none

/-- A latitude/longitude pair for the distance computation; the floating
point coordinates are modelled as real numbers. -/
structure GeoPoint where
  lat : ℝ
  lon : ℝ

/-- Two-argument arctangent with the quadrant conventions of `Math.atan2`. -/
noncomputable def atan2 (y x : ℝ) : ℝ :=
  if 0 < x then Real.arctan (y / x)
  else if x < 0 then
    (if 0 ≤ y then Real.arctan (y / x) + Real.pi else Real.arctan (y / x) - Real.pi)
  else if 0 < y then Real.pi / 2
  else if y < 0 then -(Real.pi / 2)
  else 0

/-- `haversineDistance(loc1, loc2)` from the source: the haversine formula
with Earth radius R = 6371 km. -/
noncomputable def haversineDistance (loc1 loc2 : GeoPoint) : ℝ :=
  let R : ℝ := 6371
  let dLat := (loc2.lat - loc1.lat) * Real.pi / 180
  let dLon := (loc2.lon - loc1.lon) * Real.pi / 180
  let a := Real.sin (dLat / 2) * Real.sin (dLat / 2) +
    Real.cos (loc1.lat * Real.pi / 180) * Real.cos (loc2.lat * Real.pi / 180) *
    Real.sin (dLon / 2) * Real.sin (dLon / 2)
  let c := 2 * atan2 (Real.sqrt a) (Real.sqrt (1 - a))
  R * c

/-! Lemmas about the inventory store. -/

theorem mem_upsertRecord_pid (pid : Nat) (price : ℚ) (stock : StockStatus)
    (l : List PharmacyStockInfo) :
    ∀ s ∈ upsertRecord pid price stock l,
      s.pharmacyId = pid ∨ ∃ r ∈ l, s.pharmacyId = r.pharmacyId := by
  induction l with
  | nil =>
    intro s hs
    simp only [upsertRecord, List.mem_singleton] at hs
    subst hs
    exact Or.inl rfl
  | cons r rs ih =>
    intro s hs
    by_cases h : r.pharmacyId = pid
    · simp only [upsertRecord, h, beq_self_eq_true, if_true, List.mem_cons] at hs
      rcases hs with hs | hs
      · subst hs
        exact Or.inl rfl
      · exact Or.inr ⟨s, List.mem_cons_of_mem _ hs, rfl⟩
    · simp only [upsertRecord, beq_eq_false_iff_ne.mpr h, Bool.false_eq_true, if_false,
        List.mem_cons] at hs
      rcases hs with hs | hs
      · subst hs
        exact Or.inr ⟨s, List.mem_cons_self _ _, rfl⟩
      · rcases ih s hs with h' | ⟨r', hr', h'⟩
        · exact Or.inl h'
        · exact Or.inr ⟨r', List.mem_cons_of_mem _ hr', h'⟩

theorem upsertRecord_pairwise (pid : Nat) (price : ℚ) (stock : StockStatus)
    (l : List PharmacyStockInfo)
    (h : l.Pairwise (fun r s => r.pharmacyId ≠ s.pharmacyId)) :
    (upsertRecord pid price stock l).Pairwise (fun r s => r.pharmacyId ≠ s.pharmacyId) := by
  induction l with
  | nil => simp [upsertRecord]
  | cons r rs ih =>
    rcases List.pairwise_cons.mp h with ⟨hr, hrs⟩
    by_cases hid : r.pharmacyId = pid
    · simp only [upsertRecord, hid, beq_self_eq_true, if_true]
      exact List.pairwise_cons.mpr ⟨fun s hs => hid ▸ hr s hs, hrs⟩
    · simp only [upsertRecord, beq_eq_false_iff_ne.mpr hid, Bool.false_eq_true, if_false]
      refine List.pairwise_cons.mpr ⟨fun s hs => ?_, ih hrs⟩
      rcases mem_upsertRecord_pid pid price stock rs s hs with h' | ⟨r', hr', h'⟩
      · exact h' ▸ hid
      · exact h' ▸ hr r' hr'

theorem mem_upsertKey (key : String) (pid : Nat) (price : ℚ) (stock : StockStatus)
    (inv : GlobalInventory) :
    ∀ e ∈ upsertKey key pid price stock inv,
      e ∈ inv ∨ (∃ d ∈ inv, e = (d.1, upsertRecord pid price stock d.2)) ∨
        e = (key, upsertRecord pid price stock []) := by
  induction inv with
  | nil =>
    intro e he
    simp only [upsertKey, List.mem_singleton] at he
    exact Or.inr (Or.inr he)
  | cons d rest ih =>
    intro e he
    obtain ⟨k, l⟩ := d
    by_cases hk : k = key
    · simp only [upsertKey, hk, beq_self_eq_true, if_true, List.mem_cons] at he
      rcases he with he | he
      · exact Or.inr (Or.inl ⟨(k, l), List.mem_cons_self _ _, by simp [he, hk]⟩)
      · exact Or.inl (List.mem_cons_of_mem _ he)
    · simp only [upsertKey, beq_eq_false_iff_ne.mpr hk, Bool.false_eq_true, if_false,
        List.mem_cons] at he
      rcases he with he | he
      · exact Or.inl (he ▸ List.mem_cons_self _ _)
      · rcases ih e he with h' | ⟨d', hd', h'⟩ | h'
        · exact Or.inl (List.mem_cons_of_mem _ h')
        · exact Or.inr (Or.inl ⟨d', List.mem_cons_of_mem _ hd', h'⟩)
        · exact Or.inr (Or.inr h')

theorem mem_upsertKey_key (key : String) (pid : Nat) (price : ℚ) (stock : StockStatus)
    (inv : GlobalInventory) :
    ∀ e ∈ upsertKey key pid price stock inv, e.1 = key ∨ ∃ d ∈ inv, e.1 = d.1 := by
  intro e he
  rcases mem_upsertKey key pid price stock inv e he with h | ⟨d, hd, h⟩ | h
  · exact Or.inr ⟨e, h, rfl⟩
  · exact Or.inr ⟨d, hd, by simp [h]⟩
  · exact Or.inl (by simp [h])

theorem upsertKey_keys_pairwise (key : String) (pid : Nat) (price : ℚ) (stock : StockStatus)
    (inv : GlobalInventory) (h : inv.Pairwise (fun a b => a.1 ≠ b.1)) :
    (upsertKey key pid price stock inv).Pairwise (fun a b => a.1 ≠ b.1) := by
  induction inv with
  | nil => simp [upsertKey]
  | cons d rest ih =>
    obtain ⟨k, l⟩ := d
    rcases List.pairwise_cons.mp h with ⟨hd, hrest⟩
    by_cases hk : k = key
    · subst hk
      simp only [upsertKey, beq_self_eq_true, if_true]
      exact List.pairwise_cons.mpr ⟨fun e he => hd e he, hrest⟩
    · simp only [upsertKey, beq_eq_false_iff_ne.mpr hk, Bool.false_eq_true, if_false]
      refine List.pairwise_cons.mpr ⟨fun e he => ?_, ih hrest⟩
      rcases mem_upsertKey_key key pid price stock rest e he with h' | ⟨d', hd', h'⟩
      · exact h' ▸ hk
      · exact h' ▸ hd d' hd'

theorem upsertKey_wf (key : String) (pid : Nat) (price : ℚ) (stock : StockStatus)
    (inv : GlobalInventory) (h : InvWF inv) : InvWF (upsertKey key pid price stock inv) := by
  refine ⟨upsertKey_keys_pairwise key pid price stock inv h.1, fun e he => ?_⟩
  rcases mem_upsertKey key pid price stock inv e he with h' | ⟨d, hd, h'⟩ | h'
  · exact h.2 e h'
  · rw [h']
    exact upsertRecord_pairwise pid price stock d.2 (h.2 d hd)
  · rw [h']
    exact upsertRecord_pairwise pid price stock [] (by simp)

theorem updateGlobalInventory_wf (pid : Nat) (items : List InventoryItem)
    (inv : GlobalInventory) (h : InvWF inv) :
    InvWF (updateGlobalInventory pid items inv) := by
  unfold updateGlobalInventory
  induction items generalizing inv with
  | nil => exact h
  | cons item rest ih =>
    exact ih (upsertKey (toLowerStr item.medicineName) pid item.price
      (item.stock.getD StockStatus.InStock) inv) (upsertKey_wf _ _ _ _ _ h)

theorem lookupKey_upsertKey (key : String) (pid : Nat) (price : ℚ) (stock : StockStatus)
    (inv : GlobalInventory) :
    lookupKey (upsertKey key pid price stock inv) key =
      some (upsertRecord pid price stock ((lookupKey inv key).getD [])) := by
  induction inv with
  | nil => simp [upsertKey, lookupKey]
  | cons d rest ih =>
    obtain ⟨k, l⟩ := d
    by_cases hk : k = key
    · subst hk
      simp [upsertKey, lookupKey, List.find?_cons]
    · simp only [upsertKey, beq_eq_false_iff_ne.mpr hk, Bool.false_eq_true, if_false]
      simpa [lookupKey, List.find?_cons, beq_eq_false_iff_ne.mpr hk] using ih

theorem lookup_list_pairwise (inv : GlobalInventory) (key : String) (h : InvWF inv) :
    ((lookupKey inv key).getD []).Pairwise (fun r s => r.pharmacyId ≠ s.pharmacyId) := by
  unfold lookupKey
  cases hf : inv.find? (fun e => e.1 == key) with
  | none => simp
  | some e =>
    exact h.2 e (List.mem_of_find?_eq_some hf)

theorem upsertRecord_eq_of_pairwise (pid : Nat) (price : ℚ) (stock : StockStatus)
    (l : List PharmacyStockInfo)
    (h : l.Pairwise (fun r s => r.pharmacyId ≠ s.pharmacyId)) :
    upsertRecord pid price stock l =
      if l.any (fun r => r.pharmacyId == pid)
      then l.map (fun r => if r.pharmacyId == pid
        then { r with price := price, stock := stock } else r)
      else l ++ [{ pharmacyId := pid, price := price, stock := stock }] := by
  induction l with
  | nil => simp [upsertRecord]
  | cons r rs ih =>
    rcases List.pairwise_cons.mp h with ⟨hr, hrs⟩
    by_cases hid : r.pharmacyId = pid
    · have hmap : rs.map (fun s => if s.pharmacyId == pid
          then { s with price := price, stock := stock } else s) = rs := by
        refine (List.map_congr_left fun s hs => ?_).trans (List.map_id rs)
        have hne : s.pharmacyId ≠ pid := fun hc => hr s hs (by rw [hid, hc])
        simp [beq_eq_false_iff_ne.mpr hne]
      have hbeq : (r.pharmacyId == pid) = true := by simp [hid]
      simp only [upsertRecord, hbeq, if_true, List.any_cons, Bool.true_or, List.map_cons]
      rw [hmap]
    · have hbeq : (r.pharmacyId == pid) = false := beq_eq_false_iff_ne.mpr hid
      simp only [upsertRecord, hbeq, Bool.false_eq_true, if_false, List.any_cons,
        Bool.false_or, List.map_cons, ih hrs]
      by_cases hany : rs.any (fun r => r.pharmacyId == pid)
      · simp [hany, hbeq]
      · simp only [hany, Bool.false_eq_true, if_false] at *
        simp [hbeq, hany]

/-- C4: `updateGlobalInventory` (the upsert) preserves the invariant that at
most one inventory record exists per (lower-cased medicine name, pharmacyId)
pair; moreover a single-item upsert overwrites price and stock of the record
with matching `pharmacyId` in place (preserving list positions) when one
exists under the item's lower-cased key, appends a new record otherwise, and
defaults an absent stock to `InStock`. -/
theorem upsert_preserves_uniquePerPair (pharmacyId : Nat) (items : List InventoryItem)
    (inv : GlobalInventory) (h : InvWF inv) :
    InvWF (updateGlobalInventory pharmacyId items inv) ∧
    ∀ item : InventoryItem,
      getPharmaciesForMedicine (updateGlobalInventory pharmacyId [item] inv)
          item.medicineName =
        (if (getPharmaciesForMedicine inv item.medicineName).any
            (fun r => r.pharmacyId == pharmacyId)
         then (getPharmaciesForMedicine inv item.medicineName).map
            (fun r => if r.pharmacyId == pharmacyId
              then { r with price := item.price, stock := item.stock.getD StockStatus.InStock }
              else r)
         else getPharmaciesForMedicine inv item.medicineName ++
            [{ pharmacyId := pharmacyId, price := item.price,
               stock := item.stock.getD StockStatus.InStock }]) := by
  refine ⟨updateGlobalInventory_wf pharmacyId items inv h, fun item => ?_⟩
  have hstep : updateGlobalInventory pharmacyId [item] inv =
      upsertKey (toLowerStr item.medicineName) pharmacyId item.price
        (item.stock.getD StockStatus.InStock) inv := rfl
  rw [getPharmaciesForMedicine, hstep, lookupKey_upsertKey, Option.getD_some,
    upsertRecord_eq_of_pairwise _ _ _ _ (lookup_list_pairwise inv _ h)]
  rfl

theorem upsert_preserves_uniquePerPair_witness :
    InvWF [("aspirin", [⟨3, 20, StockStatus.InStock⟩])] ∧
      InvWF (updateGlobalInventory 3 [⟨"Aspirin", 25, none⟩]
        [("aspirin", [⟨3, 20, StockStatus.InStock⟩])]) :=
  ⟨by decide, (upsert_preserves_uniquePerPair 3 [⟨"Aspirin", 25, none⟩]
    [("aspirin", [⟨3, 20, StockStatus.InStock⟩])] (by decide)).1⟩

theorem lookupKey_replaceKey_self (key : String) (nl l : List PharmacyStockInfo)
    (inv : GlobalInventory) (h : lookupKey inv key = some l) :
    lookupKey (replaceKey key nl inv) key = some nl := by
  induction inv with
  | nil => simp [lookupKey] at h
  | cons d rest ih =>
    obtain ⟨k, dl⟩ := d
    by_cases hk : k = key
    · subst hk
      simp [replaceKey, lookupKey, List.find?_cons]
    · simp only [lookupKey, List.find?_cons, beq_eq_false_iff_ne.mpr hk, Bool.false_eq_true,
        if_false] at h ⊢
      simp only [replaceKey, beq_eq_false_iff_ne.mpr hk, Bool.false_eq_true, if_false]
      simp only [lookupKey, List.find?_cons, beq_eq_false_iff_ne.mpr hk, Bool.false_eq_true,
        if_false] at ih ⊢
      exact ih h

theorem lookupKey_replaceKey_other (key other : String) (nl : List PharmacyStockInfo)
    (inv : GlobalInventory) (hne : other ≠ key) :
    lookupKey (replaceKey key nl inv) other = lookupKey inv other := by
  induction inv with
  | nil => rfl
  | cons d rest ih =>
    obtain ⟨k, dl⟩ := d
    by_cases hk : k = key
    · subst hk
      simp [replaceKey, lookupKey, List.find?_cons, beq_eq_false_iff_ne.mpr (Ne.symm hne)]
    · simp only [replaceKey, beq_eq_false_iff_ne.mpr hk, Bool.false_eq_true, if_false]
      by_cases hko : k = other
      · subst hko
        simp [lookupKey, List.find?_cons]
      · simp only [lookupKey, List.find?_cons, beq_eq_false_iff_ne.mpr hko,
          Bool.false_eq_true, if_false] at ih ⊢
        exact ih

theorem mem_replaceKey (key : String) (nl : List PharmacyStockInfo)
    (inv : GlobalInventory) :
    ∀ e ∈ replaceKey key nl inv, e ∈ inv ∨ e.2 = nl := by
  induction inv with
  | nil => intro e he; simp [replaceKey] at he
  | cons d rest ih =>
    intro e he
    obtain ⟨k, dl⟩ := d
    by_cases hk : k = key
    · subst hk
      simp only [replaceKey, beq_self_eq_true, if_true, List.mem_cons] at he
      rcases he with he | he
      · exact Or.inr (by simp [he])
      · exact Or.inl (List.mem_cons_of_mem _ he)
    · simp only [replaceKey, beq_eq_false_iff_ne.mpr hk, Bool.false_eq_true, if_false,
        List.mem_cons] at he
      rcases he with he | he
      · exact Or.inl (he ▸ List.mem_cons_self _ _)
      · rcases ih e he with h' | h'
        · exact Or.inl (List.mem_cons_of_mem _ h')
        · exact Or.inr h'

theorem mem_deleteKeyEntry (key : String) (inv : GlobalInventory) :
    ∀ e ∈ deleteKeyEntry key inv, e ∈ inv := by
  induction inv with
  | nil => intro e he; simp [deleteKeyEntry] at he
  | cons d rest ih =>
    intro e he
    obtain ⟨k, dl⟩ := d
    by_cases hk : k = key
    · subst hk
      simp only [deleteKeyEntry, beq_self_eq_true, if_true] at he
      exact List.mem_cons_of_mem _ he
    · simp only [deleteKeyEntry, beq_eq_false_iff_ne.mpr hk, Bool.false_eq_true, if_false,
        List.mem_cons] at he
      rcases he with he | he
      · exact he ▸ List.mem_cons_self _ _
      · exact List.mem_cons_of_mem _ (ih e he)

theorem lookupKey_deleteKeyEntry_self (key : String) (inv : GlobalInventory)
    (h : inv.Pairwise (fun a b => a.1 ≠ b.1)) :
    lookupKey (deleteKeyEntry key inv) key = none := by
  induction inv with
  | nil => rfl
  | cons d rest ih =>
    obtain ⟨k, dl⟩ := d
    rcases List.pairwise_cons.mp h with ⟨hd, hrest⟩
    by_cases hk : k = key
    · subst hk
      simp only [deleteKeyEntry, beq_self_eq_true, if_true]
      rw [lookupKey, List.find?_eq_none.mpr]
      · rfl
      · intro e he
        exact beq_eq_false_iff_ne.mpr (Ne.symm (hd e he)) ▸ by
          simp [beq_eq_false_iff_ne.mpr (Ne.symm (hd e he))]
    · simp only [deleteKeyEntry, beq_eq_false_iff_ne.mpr hk, Bool.false_eq_true, if_false]
      simp only [lookupKey, List.find?_cons, beq_eq_false_iff_ne.mpr hk, Bool.false_eq_true,
        if_false]
      exact ih hrest

theorem setStockOfRecord_eq_of_pairwise (pid : Nat) (stock : StockStatus)
    (l : List PharmacyStockInfo)
    (h : l.Pairwise (fun r s => r.pharmacyId ≠ s.pharmacyId)) :
    setStockOfRecord pid stock l =
      l.map (fun r => if r.pharmacyId == pid then { r with stock := stock } else r) := by
  induction l with
  | nil => rfl
  | cons r rs ih =>
    rcases List.pairwise_cons.mp h with ⟨hr, hrs⟩
    by_cases hid : r.pharmacyId = pid
    · have hmap : rs.map (fun s => if s.pharmacyId == pid
          then { s with stock := stock } else s) = rs := by
        refine (List.map_congr_left fun s hs => ?_).trans (List.map_id rs)
        have hne : s.pharmacyId ≠ pid := fun hc => hr s hs (by rw [hid, hc])
        simp [beq_eq_false_iff_ne.mpr hne]
      have hbeq : (r.pharmacyId == pid) = true := by simp [hid]
      simp only [setStockOfRecord, hbeq, if_true, List.map_cons]
      rw [hmap]
    · have hbeq : (r.pharmacyId == pid) = false := beq_eq_false_iff_ne.mpr hid
      simp only [setStockOfRecord, hbeq, Bool.false_eq_true, if_false, List.map_cons,
        ih hrs]

/-- C8: `updateStockStatusInGlobalInventory` overwrites only the `stock` field
of the record matching the lower-cased medicine name and `pharmacyId` when
both exist — the medicine's record list becomes the pointwise overwrite of the
matching record's stock, and every other medicine key is untouched — while a
missing key or missing record leaves the stored inventory literally unchanged
(a silent no-op, no error). -/
theorem updateStock_overwrite_or_noop (pharmacyId : Nat) (medicineName : String)
    (stock : StockStatus) (inv : GlobalInventory) (h : InvWF inv) :
    ((∀ r ∈ getPharmaciesForMedicine inv medicineName, r.pharmacyId ≠ pharmacyId) →
      updateStockStatusInGlobalInventory pharmacyId medicineName stock inv = inv) ∧
    getPharmaciesForMedicine
        (updateStockStatusInGlobalInventory pharmacyId medicineName stock inv)
        medicineName =
      (getPharmaciesForMedicine inv medicineName).map
        (fun r => if r.pharmacyId == pharmacyId then { r with stock := stock } else r) ∧
    ∀ other : String, toLowerStr other ≠ toLowerStr medicineName →
      getPharmaciesForMedicine
          (updateStockStatusInGlobalInventory pharmacyId medicineName stock inv) other =
        getPharmaciesForMedicine inv other := by
  cases hl : lookupKey inv (toLowerStr medicineName) with
  | none =>
    have hdef : updateStockStatusInGlobalInventory pharmacyId medicineName stock inv = inv := by
      simp [updateStockStatusInGlobalInventory, hl]
    refine ⟨fun _ => hdef, ?_, fun other _ => by rw [hdef]⟩
    rw [hdef]
    simp [getPharmaciesForMedicine, hl]
  | some l =>
    by_cases hany : l.any (fun r => r.pharmacyId == pharmacyId)
    · have hdef : updateStockStatusInGlobalInventory pharmacyId medicineName stock inv =
          replaceKey (toLowerStr medicineName) (setStockOfRecord pharmacyId stock l) inv := by
        simp [updateStockStatusInGlobalInventory, hl, hany]
      have hpw : l.Pairwise (fun r s => r.pharmacyId ≠ s.pharmacyId) := by
        have hp := lookup_list_pairwise inv (toLowerStr medicineName) h
        rwa [hl, Option.getD_some] at hp
      refine ⟨fun hno => ?_, ?_, fun other hne => ?_⟩
      · rcases List.any_eq_true.mp hany with ⟨r, hrl, hr⟩
        have hrmem : r ∈ getPharmaciesForMedicine inv medicineName := by
          simp [getPharmaciesForMedicine, hl, hrl]
        exact absurd (beq_iff_eq.mp hr) (hno r hrmem)
      · unfold getPharmaciesForMedicine
        rw [hdef, lookupKey_replaceKey_self _ _ _ inv hl, Option.getD_some, hl,
          Option.getD_some, setStockOfRecord_eq_of_pairwise _ _ _ hpw]
      · unfold getPharmaciesForMedicine
        rw [hdef, lookupKey_replaceKey_other _ _ _ inv hne]
    · have hdef : updateStockStatusInGlobalInventory pharmacyId medicineName stock inv = inv := by
        simp [updateStockStatusInGlobalInventory, hl, hany]
      refine ⟨fun _ => hdef, ?_, fun other _ => by rw [hdef]⟩
      rw [hdef]
      unfold getPharmaciesForMedicine
      rw [hl, Option.getD_some]
      refine ((List.map_congr_left fun r hr => ?_).trans (List.map_id l)).symm
      have hrne : (r.pharmacyId == pharmacyId) = false := by
        have hf : l.any (fun r => r.pharmacyId == pharmacyId) = false :=
          Bool.eq_false_iff.mpr hany
        have := List.any_eq_false.mp hf r hr
        simpa using this
      simp [hrne]

theorem updateStock_overwrite_or_noop_witness :
    InvWF [("aspirin", [⟨3, 20, StockStatus.InStock⟩])] ∧
      updateStockStatusInGlobalInventory 9 "aspirin" StockStatus.LowStock
          [("aspirin", [⟨3, 20, StockStatus.InStock⟩])] =
        [("aspirin", [⟨3, 20, StockStatus.InStock⟩])] :=
  ⟨by decide, (updateStock_overwrite_or_noop 9 "aspirin" StockStatus.LowStock
    [("aspirin", [⟨3, 20, StockStatus.InStock⟩])] (by decide)).1 (by decide)⟩

/-- C7: `deleteFromGlobalInventory` removes the record with the given
`pharmacyId` from the lower-cased medicine's list; a list that becomes empty
has its medicine key deleted from the map, so no empty-list entry ever
persists and, once the last record of a medicine is removed, looking the
medicine up (under any casing of the same key) finds no entry at all. -/
theorem remove_dropsRecord_and_emptyKey (pharmacyId : Nat) (medicineName : String)
    (inv : GlobalInventory) (h : InvWF inv) :
    getPharmaciesForMedicine (deleteFromGlobalInventory pharmacyId medicineName inv)
        medicineName =
      (getPharmaciesForMedicine inv medicineName).filter
        (fun r => !(r.pharmacyId == pharmacyId)) ∧
    ((∀ e ∈ inv, e.2 ≠ []) →
      ∀ e ∈ deleteFromGlobalInventory pharmacyId medicineName inv, e.2 ≠ []) ∧
    ((getPharmaciesForMedicine inv medicineName).filter
        (fun r => !(r.pharmacyId == pharmacyId)) = [] →
      lookupKey (deleteFromGlobalInventory pharmacyId medicineName inv)
        (toLowerStr medicineName) = none) := by
  cases hl : lookupKey inv (toLowerStr medicineName) with
  | none =>
    have hdef : deleteFromGlobalInventory pharmacyId medicineName inv = inv := by
      simp [deleteFromGlobalInventory, hl]
    refine ⟨?_, fun hne e he => hne e (hdef ▸ he), fun _ => by rw [hdef]; exact hl⟩
    rw [hdef]
    simp [getPharmaciesForMedicine, hl]
  | some l =>
    have hgp : getPharmaciesForMedicine inv medicineName = l := by
      simp [getPharmaciesForMedicine, hl]
    by_cases hemp : (l.filter (fun r => !(r.pharmacyId == pharmacyId))).isEmpty
    · have hdef : deleteFromGlobalInventory pharmacyId medicineName inv =
          deleteKeyEntry (toLowerStr medicineName) inv := by
        simp [deleteFromGlobalInventory, hl, hemp]
      have hnil : l.filter (fun r => !(r.pharmacyId == pharmacyId)) = [] :=
        List.isEmpty_iff.mp hemp
      refine ⟨?_, fun hne e he => hne e (mem_deleteKeyEntry _ inv e (hdef ▸ he)),
        fun _ => hdef ▸ lookupKey_deleteKeyEntry_self _ inv h.1⟩
      rw [hdef, hgp, hnil]
      simp [getPharmaciesForMedicine, lookupKey_deleteKeyEntry_self _ inv h.1]
    · have hdef : deleteFromGlobalInventory pharmacyId medicineName inv =
          replaceKey (toLowerStr medicineName)
            (l.filter (fun r => !(r.pharmacyId == pharmacyId))) inv := by
        simp [deleteFromGlobalInventory, hl, hemp]
      have hnotnil : l.filter (fun r => !(r.pharmacyId == pharmacyId)) ≠ [] :=
        fun hc => hemp (List.isEmpty_iff.mpr hc)
      refine ⟨?_, fun hne e he => ?_, fun hc => absurd (hgp ▸ hc) hnotnil⟩
      · rw [hdef, hgp]
        unfold getPharmaciesForMedicine
        rw [lookupKey_replaceKey_self _ _ _ inv hl, Option.getD_some]
      · rcases mem_replaceKey _ _ inv e (hdef ▸ he) with h' | h'
        · exact hne e h'
        · rw [h']
          exact hnotnil

theorem remove_dropsRecord_and_emptyKey_witness :
    InvWF [("aspirin", [⟨3, 20, StockStatus.InStock⟩])] ∧
      getPharmaciesForMedicine (deleteFromGlobalInventory 3 "Aspirin"
          [("aspirin", [⟨3, 20, StockStatus.InStock⟩])]) "Aspirin" =
        (getPharmaciesForMedicine [("aspirin", [⟨3, 20, StockStatus.InStock⟩])]
            "Aspirin").filter (fun r => !(r.pharmacyId == 3)) :=
  ⟨by decide, (remove_dropsRecord_and_emptyKey 3 "Aspirin"
    [("aspirin", [⟨3, 20, StockStatus.InStock⟩])] (by decide)).1⟩

/-! Lemmas about the pharmacy registrar. -/

theorem foldl_max_init_le (l : List Nat) (a : Nat) : a ≤ l.foldl max a := by
  induction l generalizing a with
  | nil => exact Nat.le_refl a
  | cons x xs ih => exact Nat.le_trans (Nat.le_max_left a x) (ih (max a x))

theorem verified_ids_small :
    ∀ v ∈ VERIFIED_PHARMACIES_IN_BANGALORE.map (fun p => p.id), v < 1001 := by decide


theorem registerOrGet_found (details : PharmacyOwner) (location : Location)
    (dynamicPharmacies : List Pharmacy) (p : BasePharmacy)
    (hp : (getCombinedPharmacies dynamicPharmacies).find?
        (fun q => toLowerStr q.name == toLowerStr details.name) = some p) :
    registerOrGetPharmacy details location dynamicPharmacies = (p, dynamicPharmacies) := by
  simp only [registerOrGetPharmacy, hp]

theorem registerOrGet_notFound (details : PharmacyOwner) (location : Location)
    (dynamicPharmacies : List Pharmacy)
    (hf : (getCombinedPharmacies dynamicPharmacies).find?
        (fun q => toLowerStr q.name == toLowerStr details.name) = none) :
    registerOrGetPharmacy details location dynamicPharmacies =
      ((mkNewPharmacy details location dynamicPharmacies).base,
       dynamicPharmacies ++ [mkNewPharmacy details location dynamicPharmacies]) := by
  simp only [registerOrGetPharmacy, hf, mkNewPharmacy]

theorem getCombinedPharmacies_append_fresh (dynamicPharmacies : List Pharmacy)
    (p : Pharmacy)
    (hfresh : ((VERIFIED_PHARMACIES_IN_BANGALORE.map (fun q => q.id)).contains p.id) = false) :
    getCombinedPharmacies (dynamicPharmacies ++ [p]) =
      getCombinedPharmacies dynamicPharmacies ++ [p.base] := by
  have hfresh2 : ¬∃ a ∈ VERIFIED_PHARMACIES_IN_BANGALORE, a.id = p.id := by
    simpa using hfresh
  simp [getCombinedPharmacies, List.filter_append, hfresh2, List.append_assoc]

/-- C5: `registerOrGetPharmacy` is idempotent in the pharmacy name: when some
pharmacy (seed or dynamic) matches the owner's name case-insensitively, the
call returns exactly that stored record — id, address, phone and location
untouched — and leaves the dynamic collection exactly as it was; consequently
a second call with the same details returns the same record (same id) as the
first call and does not grow or modify the dynamic collection. -/
theorem registerOrGet_idempotent (details : PharmacyOwner) (location : Location)
    (dynamicPharmacies : List Pharmacy) :
    (∀ p : BasePharmacy,
      (getCombinedPharmacies dynamicPharmacies).find?
          (fun q => toLowerStr q.name == toLowerStr details.name) = some p →
      registerOrGetPharmacy details location dynamicPharmacies = (p, dynamicPharmacies)) ∧
    registerOrGetPharmacy details location
        (registerOrGetPharmacy details location dynamicPharmacies).2 =
      ((registerOrGetPharmacy details location dynamicPharmacies).1,
       (registerOrGetPharmacy details location dynamicPharmacies).2) := by
  refine ⟨fun p hp => registerOrGet_found details location dynamicPharmacies p hp, ?_⟩
  cases hf : (getCombinedPharmacies dynamicPharmacies).find?
      (fun q => toLowerStr q.name == toLowerStr details.name) with
  | some p =>
    rw [registerOrGet_found details location dynamicPharmacies p hf]
    exact registerOrGet_found details location dynamicPharmacies p hf
  | none =>
    have h1 := registerOrGet_notFound details location dynamicPharmacies hf
    set newP := mkNewPharmacy details location dynamicPharmacies with hnewP
    have hbig : 1000 < newP.id := by
      have hle := foldl_max_init_le (dynamicPharmacies.map (fun p => p.id) ++
        VERIFIED_PHARMACIES_IN_BANGALORE.map (fun p => p.id)) 1000
      simp only [hnewP, mkNewPharmacy]
      omega
    have hfresh : ((VERIFIED_PHARMACIES_IN_BANGALORE.map (fun q => q.id)).contains
        newP.id) = false := by
      rw [Bool.eq_false_iff]
      intro hc
      have hmem := List.mem_of_elem_eq_true hc
      have := verified_ids_small newP.id hmem
      omega
    have hcomb := getCombinedPharmacies_append_fresh dynamicPharmacies newP hfresh
    have hpred : (toLowerStr newP.base.name == toLowerStr details.name) = true := by
      simp [hnewP, mkNewPharmacy, Pharmacy.base]
    have hfind2 : (getCombinedPharmacies (dynamicPharmacies ++ [newP])).find?
        (fun q => toLowerStr q.name == toLowerStr details.name) = some newP.base := by
      rw [hcomb, List.find?_append, hf, Option.none_or]
      simp [List.find?_cons, hpred]
    rw [h1]
    exact registerOrGet_found details location (dynamicPharmacies ++ [newP]) newP.base hfind2

theorem registerOrGet_idempotent_witness :
    (getCombinedPharmacies []).find?
        (fun q => toLowerStr q.name == toLowerStr "Apollo Pharmacy") =
      some { id := 21, name := "Apollo Pharmacy",
             address := "Mysore Road, Kengeri Satellite Town", phone := "080-2848-1122",
             lat := 12.9189, lon := 77.4856 } ∧
    registerOrGetPharmacy ⟨"Apollo Pharmacy", "080", "addr"⟩ ⟨0, 0⟩ [] =
      ({ id := 21, name := "Apollo Pharmacy",
         address := "Mysore Road, Kengeri Satellite Town", phone := "080-2848-1122",
         lat := 12.9189, lon := 77.4856 }, []) :=
  ⟨by decide, (registerOrGet_idempotent ⟨"Apollo Pharmacy", "080", "addr"⟩ ⟨0, 0⟩ []).1
    { id := 21, name := "Apollo Pharmacy",
      address := "Mysore Road, Kengeri Satellite Town", phone := "080-2848-1122",
      lat := 12.9189, lon := 77.4856 } (by decide)⟩

theorem mem_le_foldl_max (l : List Nat) (a : Nat) : ∀ x ∈ l, x ≤ l.foldl max a := by
  induction l generalizing a with
  | nil => intro x hx; simp at hx
  | cons y ys ih =>
    intro x hx
    rcases List.mem_cons.mp hx with h | h
    · subst h
      exact Nat.le_trans (Nat.le_max_right a x) (foldl_max_init_le ys (max a x))
    · exact ih (max a y) x h

/-- C6: when no case-insensitive name match exists, `registerOrGetPharmacy`
creates a pharmacy whose id equals the maximum of all dynamic ids, all seed
ids and the fixed baseline 1000, plus one (hence strictly above every
existing id), filled from the owner's name, address and phone and the
supplied coordinates; the pharmacy is appended to the dynamic collection and
that whole collection is what gets persisted, as a single replace. -/
theorem registerOrGet_allocatesNewId (details : PharmacyOwner) (location : Location)
    (dynamicPharmacies : List Pharmacy)
    (hf : (getCombinedPharmacies dynamicPharmacies).find?
        (fun q => toLowerStr q.name == toLowerStr details.name) = none) :
    ∃ newP : Pharmacy,
      registerOrGetPharmacy details location dynamicPharmacies =
        (newP.base, dynamicPharmacies ++ [newP]) ∧
      newP.id = (dynamicPharmacies.map (fun p => p.id) ++
        VERIFIED_PHARMACIES_IN_BANGALORE.map (fun p => p.id)).foldl max 1000 + 1 ∧
      newP.name = details.name ∧ newP.address = details.address ∧
      newP.phone = details.phone ∧ newP.lat = location.lat ∧ newP.lon = location.lon ∧
      ∀ q ∈ getCombinedPharmacies dynamicPharmacies, q.id < newP.id := by
  refine ⟨mkNewPharmacy details location dynamicPharmacies,
    registerOrGet_notFound details location dynamicPharmacies hf,
    rfl, rfl, rfl, rfl, rfl, rfl, ?_⟩
  intro q hq
  simp only [getCombinedPharmacies] at hq
  have hmax : (mkNewPharmacy details location dynamicPharmacies).id =
      (dynamicPharmacies.map (fun p => p.id) ++
        VERIFIED_PHARMACIES_IN_BANGALORE.map (fun p => p.id)).foldl max 1000 + 1 := rfl
  rcases List.mem_append.mp hq with h | h
  · have hv : q.id ∈ VERIFIED_PHARMACIES_IN_BANGALORE.map (fun p => p.id) :=
      List.mem_map_of_mem _ h
    have hsmall := verified_ids_small q.id hv
    have hge := foldl_max_init_le (dynamicPharmacies.map (fun p => p.id) ++
      VERIFIED_PHARMACIES_IN_BANGALORE.map (fun p => p.id)) 1000
    omega
  · rcases List.mem_map.mp h with ⟨p, hp, hbase⟩
    have hpd : p ∈ dynamicPharmacies := List.mem_of_mem_filter hp
    have hpm : p.id ∈ dynamicPharmacies.map (fun p => p.id) := List.mem_map_of_mem _ hpd
    have hle := mem_le_foldl_max (dynamicPharmacies.map (fun p => p.id) ++
      VERIFIED_PHARMACIES_IN_BANGALORE.map (fun p => p.id)) 1000 p.id
      (List.mem_append.mpr (Or.inl hpm))
    have hq_id : q.id = p.id := by rw [← hbase]; rfl
    omega

theorem registerOrGet_allocatesNewId_witness :
    ((getCombinedPharmacies []).find?
        (fun q => toLowerStr q.name == toLowerStr "Zeta Pharmacy") = none) ∧
    ∃ newP : Pharmacy,
      registerOrGetPharmacy ⟨"Zeta Pharmacy", "1", "a"⟩ ⟨1, 2⟩ [] =
        (newP.base, [] ++ [newP]) ∧
      newP.id = (([] : List Pharmacy).map (fun p => p.id) ++
        VERIFIED_PHARMACIES_IN_BANGALORE.map (fun p => p.id)).foldl max 1000 + 1 ∧
      newP.name = "Zeta Pharmacy" ∧ newP.address = "a" ∧ newP.phone = "1" ∧
      newP.lat = 1 ∧ newP.lon = 2 ∧
      ∀ q ∈ getCombinedPharmacies [], q.id < newP.id :=
  ⟨by decide, registerOrGet_allocatesNewId ⟨"Zeta Pharmacy", "1", "a"⟩ ⟨1, 2⟩ [] (by decide)⟩

/-! Lemmas about the search pipeline. -/

theorem findNearbyPharmacies_eq_markBest (distFn : BasePharmacy → ℚ)
    (inv : GlobalInventory) (dynamicPharmacies : List Pharmacy) (medicineName : String) :
    findNearbyPharmacies distFn inv dynamicPharmacies medicineName =
      markBest (searchResults distFn inv dynamicPharmacies medicineName) := rfl

theorem enrichPharmacy_isBestOption (d : ℚ) (entries : List PharmacyStockInfo)
    (p : BasePharmacy) : (enrichPharmacy d entries p).isBestOption = false := by
  unfold enrichPharmacy
  cases mapLookup entries p.id <;> rfl

theorem searchResults_length (distFn : BasePharmacy → ℚ) (inv : GlobalInventory)
    (dynamicPharmacies : List Pharmacy) (medicineName : String) :
    (searchResults distFn inv dynamicPharmacies medicineName).length ≤ 10 :=
  List.length_take_le 10 _

theorem searchResults_stock (distFn : BasePharmacy → ℚ) (inv : GlobalInventory)
    (dynamicPharmacies : List Pharmacy) (medicineName : String) :
    ∀ p ∈ searchResults distFn inv dynamicPharmacies medicineName,
      p.stock = StockStatus.InStock := by
  intro p hp
  have hf := (List.take_sublist 10 _).mem hp
  have := List.of_mem_filter hf
  simpa using this

theorem searchResults_sorted (distFn : BasePharmacy → ℚ) (inv : GlobalInventory)
    (dynamicPharmacies : List Pharmacy) (medicineName : String) :
    (searchResults distFn inv dynamicPharmacies medicineName).Pairwise
      (fun a b => a.distance ≤ b.distance) := by
  have hsorted := List.sorted_insertionSort (fun a b : Pharmacy => a.distance ≤ b.distance)
    ((getCombinedPharmacies dynamicPharmacies).map
      (fun p => enrichPharmacy (distFn p) (getPharmaciesForMedicine inv medicineName) p))
  exact List.Pairwise.sublist ((List.take_sublist 10 _).trans (List.filter_sublist _)) hsorted

theorem searchResults_flags (distFn : BasePharmacy → ℚ) (inv : GlobalInventory)
    (dynamicPharmacies : List Pharmacy) (medicineName : String) :
    ∀ p ∈ searchResults distFn inv dynamicPharmacies medicineName,
      p.isBestOption = false := by
  intro p hp
  have hf := (List.take_sublist 10 _).mem hp
  have hs := (List.filter_sublist _).mem hf
  have hm := (List.perm_insertionSort (fun a b : Pharmacy => a.distance ≤ b.distance)
    _).mem_iff.mp hs
  rcases List.mem_map.mp hm with ⟨q, _, hq⟩
  rw [← hq]
  exact enrichPharmacy_isBestOption _ _ q

theorem modifyAt_length (f : Pharmacy → Pharmacy) (i : Nat) (l : List Pharmacy) :
    (modifyAt f i l).length = l.length := by
  induction l generalizing i with
  | nil => cases i <;> rfl
  | cons p ps ih =>
    cases i with
    | zero => rfl
    | succ n => simp [modifyAt, ih]

theorem modifyAt_map_proj {β : Type} (f : Pharmacy → Pharmacy) (g : Pharmacy → β)
    (hfg : ∀ p, g (f p) = g p) (i : Nat) (l : List Pharmacy) :
    (modifyAt f i l).map g = l.map g := by
  induction l generalizing i with
  | nil => cases i <;> rfl
  | cons p ps ih =>
    cases i with
    | zero => simp [modifyAt, hfg]
    | succ n => simp [modifyAt, ih]

theorem findIndex_lt_length (pred : Pharmacy → Bool) (l : List Pharmacy) (i : Nat)
    (h : findIndex pred l = some i) : i < l.length := by
  induction l generalizing i with
  | nil => simp [findIndex] at h
  | cons p ps ih =>
    by_cases hp : pred p
    · simp only [findIndex, hp, if_true, Option.some.injEq] at h
      subst h
      simp
    · simp only [findIndex, hp, Bool.false_eq_true, if_false, Option.map_eq_some'] at h
      rcases h with ⟨j, hj, hij⟩
      have := ih j hj
      simp only [List.length_cons]
      omega

theorem findIndex_isSome_of_mem (pred : Pharmacy → Bool) (l : List Pharmacy)
    (x : Pharmacy) (hx : x ∈ l) (hp : pred x = true) :
    ∃ i, findIndex pred l = some i := by
  induction l with
  | nil => simp at hx
  | cons p ps ih =>
    by_cases hpp : pred p
    · exact ⟨0, by simp [findIndex, hpp]⟩
    · rcases List.mem_cons.mp hx with h | h
      · subst h
        exact absurd hp (by simpa using hpp)
      · rcases ih h with ⟨j, hj⟩
        exact ⟨j + 1, by simp [findIndex, hpp, hj]⟩

theorem foldl_bestStep_some (l : List Pharmacy) (b : Pharmacy) :
    ∃ c, l.foldl bestStep (some b) = some c ∧ (c = b ∨ c ∈ l) := by
  induction l generalizing b with
  | nil => exact ⟨b, rfl, Or.inl rfl⟩
  | cons p ps ih =>
    have hstep : ∃ c1, bestStep (some b) p = some c1 ∧ (c1 = b ∨ c1 = p) := by
      unfold bestStep
      by_cases h1 : p.distance < b.distance ∧ p.price < b.price + 10
      · exact ⟨p, by simp [h1], Or.inr rfl⟩
      · by_cases h2 : p.price < b.price ∧ p.distance < b.distance + 2
        · exact ⟨p, by simp [h1, h2], Or.inr rfl⟩
        · exact ⟨b, by simp [h1, h2], Or.inl rfl⟩
    rcases hstep with ⟨c1, hc1, hor⟩
    rcases ih c1 with ⟨c, hc, hcor⟩
    refine ⟨c, by rw [List.foldl_cons, hc1]; exact hc, ?_⟩
    rcases hcor with h | h
    · subst h
      rcases hor with h | h
      · exact Or.inl h
      · exact Or.inr (h ▸ List.mem_cons_self _ _)
    · exact Or.inr (List.mem_cons_of_mem _ h)

theorem pickBest_eq_some (l : List Pharmacy) (hne : l ≠ []) :
    ∃ b, pickBest l = some b ∧ b ∈ l := by
  cases l with
  | nil => exact absurd rfl hne
  | cons p ps =>
    rcases foldl_bestStep_some ps p with ⟨c, hc, hor⟩
    refine ⟨c, ?_, ?_⟩
    · unfold pickBest
      rw [List.foldl_cons]
      exact hc
    · rcases hor with h | h
      · exact h ▸ List.mem_cons_self _ _
      · exact List.mem_cons_of_mem _ h

theorem countP_modifyAt_flag (l : List Pharmacy) (i : Nat) (hi : i < l.length)
    (hall : ∀ p ∈ l, p.isBestOption = false) :
    (modifyAt (fun p => { p with isBestOption := true }) i l).countP
      (fun p => p.isBestOption) = 1 := by
  induction l generalizing i with
  | nil => simp at hi
  | cons p ps ih =>
    cases i with
    | zero =>
      have hzero : ps.countP (fun p => p.isBestOption) = 0 :=
        List.countP_eq_zero.mpr (fun q hq => by
          simp [hall q (List.mem_cons_of_mem _ hq)])
      simp [modifyAt, List.countP_cons, hzero]
    | succ n =>
      have hp : p.isBestOption = false := hall p (List.mem_cons_self _ _)
      have := ih n (by simpa using hi) (fun q hq => hall q (List.mem_cons_of_mem _ hq))
      simp [modifyAt, List.countP_cons, hp, this]

theorem markBest_cases (l : List Pharmacy) :
    markBest l = l ∨ ∃ i, i < l.length ∧
      markBest l = modifyAt (fun p => { p with isBestOption := true }) i l := by
  cases hpb : pickBest l with
  | none => exact Or.inl (by simp only [markBest, hpb])
  | some b =>
    cases hfi : findIndex (fun p => p.id == b.id) l with
    | none => exact Or.inl (by simp only [markBest, hpb, hfi])
    | some i =>
      exact Or.inr ⟨i, findIndex_lt_length _ l i hfi, by simp only [markBest, hpb, hfi]⟩

theorem markBest_length (l : List Pharmacy) : (markBest l).length = l.length := by
  rcases markBest_cases l with h | ⟨i, _, h⟩
  · rw [h]
  · rw [h, modifyAt_length]

theorem markBest_map_proj {β : Type} (g : Pharmacy → β)
    (hg : ∀ p : Pharmacy, g { p with isBestOption := true } = g p) (l : List Pharmacy) :
    (markBest l).map g = l.map g := by
  rcases markBest_cases l with h | ⟨i, _, h⟩
  · rw [h]
  · rw [h, modifyAt_map_proj _ _ hg]

theorem mem_markBest_proj {β : Type} (g : Pharmacy → β)
    (hg : ∀ p : Pharmacy, g { p with isBestOption := true } = g p) (l : List Pharmacy)
    (p : Pharmacy) (hp : p ∈ markBest l) : ∃ q ∈ l, g q = g p := by
  have h1 : g p ∈ (markBest l).map g := List.mem_map_of_mem g hp
  rw [markBest_map_proj g hg] at h1
  rcases List.mem_map.mp h1 with ⟨q, hq, hgq⟩
  exact ⟨q, hq, hgq⟩

/-- C1: for every user location (here an arbitrary per-pharmacy rounded
distance assignment) and medicine name, `findNearbyPharmacies` returns at
most 10 results, every result is `InStock`, the results are sorted ascending
by their rounded distance, and at most one result carries
`isBestOption = true`. -/
theorem findNearby_postconditions (distFn : BasePharmacy → ℚ) (inv : GlobalInventory)
    (dynamicPharmacies : List Pharmacy) (medicineName : String) :
    (findNearbyPharmacies distFn inv dynamicPharmacies medicineName).length ≤ 10 ∧
    (∀ p ∈ findNearbyPharmacies distFn inv dynamicPharmacies medicineName,
      p.stock = StockStatus.InStock) ∧
    (findNearbyPharmacies distFn inv dynamicPharmacies medicineName).Pairwise
      (fun a b => a.distance ≤ b.distance) ∧
    (findNearbyPharmacies distFn inv dynamicPharmacies medicineName).countP
      (fun p => p.isBestOption) ≤ 1 := by
  rw [findNearbyPharmacies_eq_markBest]
  refine ⟨?_, ?_, ?_, ?_⟩
  · rw [markBest_length]
    exact searchResults_length distFn inv dynamicPharmacies medicineName
  · intro p hp
    rcases mem_markBest_proj (fun p => p.stock) (fun p => rfl) _ p hp with ⟨q, hq, hgq⟩
    rw [← hgq]
    exact searchResults_stock distFn inv dynamicPharmacies medicineName q hq
  · have h1 : (markBest (searchResults distFn inv dynamicPharmacies medicineName)).map
        (fun p => p.distance) =
        (searchResults distFn inv dynamicPharmacies medicineName).map
          (fun p => p.distance) :=
      markBest_map_proj (fun p => p.distance) (fun p => rfl) _
    have h3 : ((searchResults distFn inv dynamicPharmacies medicineName).map
        (fun p => p.distance)).Pairwise (fun a b : ℚ => a ≤ b) :=
      List.pairwise_map.mpr (searchResults_sorted distFn inv dynamicPharmacies medicineName)
    rw [← h1] at h3
    exact List.pairwise_map.mp h3
  · rcases markBest_cases (searchResults distFn inv dynamicPharmacies medicineName) with
      h | ⟨i, hi, h⟩
    · rw [h]
      have h0 : (searchResults distFn inv dynamicPharmacies medicineName).countP
          (fun p => p.isBestOption) = 0 :=
        List.countP_eq_zero.mpr (fun p hp => by
          simp [searchResults_flags distFn inv dynamicPharmacies medicineName p hp])
      omega
    · rw [h, countP_modifyAt_flag _ i hi
        (searchResults_flags distFn inv dynamicPharmacies medicineName)]

/-- C9: whenever `findNearbyPharmacies` returns a non-empty list, exactly one
result has `isBestOption = true`: the left-to-right reduction always yields a
winner from a non-empty list, and the winner being an element of the result
list guarantees the id lookup that sets the flag succeeds. -/
theorem findNearby_exactlyOneBest (distFn : BasePharmacy → ℚ) (inv : GlobalInventory)
    (dynamicPharmacies : List Pharmacy) (medicineName : String)
    (hne : findNearbyPharmacies distFn inv dynamicPharmacies medicineName ≠ []) :
    (findNearbyPharmacies distFn inv dynamicPharmacies medicineName).countP
      (fun p => p.isBestOption) = 1 := by
  rw [findNearbyPharmacies_eq_markBest] at hne ⊢
  have hRne : searchResults distFn inv dynamicPharmacies medicineName ≠ [] := by
    intro hc
    rw [hc] at hne
    exact hne rfl
  rcases pickBest_eq_some _ hRne with ⟨b, hb, hbm⟩
  rcases findIndex_isSome_of_mem (fun p => p.id == b.id) _ b hbm (by simp) with ⟨i, hi⟩
  have hmark : markBest (searchResults distFn inv dynamicPharmacies medicineName) =
      modifyAt (fun p => { p with isBestOption := true }) i
        (searchResults distFn inv dynamicPharmacies medicineName) := by
    simp only [markBest, hb, hi]
  rw [hmark]
  exact countP_modifyAt_flag _ i (findIndex_lt_length _ _ i hi)
    (searchResults_flags distFn inv dynamicPharmacies medicineName)

theorem findNearby_exactlyOneBest_witness :
    findNearbyPharmacies (fun _ => 0)
        [("paracetamol", [⟨21, 50, StockStatus.InStock⟩])] [] "Paracetamol" ≠ [] ∧
    (findNearbyPharmacies (fun _ => 0)
        [("paracetamol", [⟨21, 50, StockStatus.InStock⟩])] [] "Paracetamol").countP
      (fun p => p.isBestOption) = 1 :=
  ⟨by decide, findNearby_exactlyOneBest _ _ _ _ (by decide)⟩

/-- C2: best-option selection is one left-to-right pass: the step keeps the
first result as initial best and replaces the running best with candidate `p`
exactly when (a) `p` is closer and less than 10 units more expensive, or
(b) `p` is cheaper and less than 2 km farther; in the concrete scenario
A(1.0 km, 50), B(1.5 km, 40), C(5.0 km, 100) — pharmacies 21, 22 and 30, all
in stock — the full search flags exactly B (pharmacy 22) as best option. -/
theorem bestOption_singlePass :
    (∀ (b p : Pharmacy), bestStep (some b) p =
      some (if (p.distance < b.distance ∧ p.price < b.price + 10) ∨
               (p.price < b.price ∧ p.distance < b.distance + 2) then p else b)) ∧
    (∀ (r : Pharmacy) (rs : List Pharmacy), pickBest (r :: rs) = rs.foldl bestStep (some r)) ∧
    (findNearbyPharmacies
        (fun p => if p.id == 21 then 1 else if p.id == 22 then 3 / 2
          else if p.id == 30 then 5 else 100)
        [("paracetamol", [⟨21, 50, StockStatus.InStock⟩, ⟨22, 40, StockStatus.InStock⟩,
          ⟨30, 100, StockStatus.InStock⟩])]
        [] "Paracetamol").map (fun p => (p.id, p.distance, p.price, p.isBestOption)) =
      [(21, 1, 50, false), (22, 3 / 2, 40, true), (30, 5, 100, false)] := by
  refine ⟨fun b p => ?_, fun r rs => rfl, by decide⟩
  unfold bestStep
  by_cases h1 : p.distance < b.distance ∧ p.price < b.price + 10
  · simp [h1]
  · by_cases h2 : p.price < b.price ∧ p.distance < b.distance + 2
    · simp [h1, h2]
    · simp [h1, h2]

theorem foldl_bestStep_ruleB (l : List Pharmacy) (b : Pharmacy)
    (hb : ∀ p ∈ l, b.distance ≤ p.distance)
    (hs : l.Pairwise (fun a b => a.distance ≤ b.distance)) :
    l.foldl bestStep (some b) = l.foldl bestStepRuleB (some b) := by
  induction l generalizing b with
  | nil => rfl
  | cons p ps ih =>
    rcases List.pairwise_cons.mp hs with ⟨hp, hps⟩
    have hbp : b.distance ≤ p.distance := hb p (List.mem_cons_self _ _)
    have hstep : bestStep (some b) p = bestStepRuleB (some b) p := by
      unfold bestStep bestStepRuleB
      have h1 : ¬(p.distance < b.distance ∧ p.price < b.price + 10) :=
        fun hc => absurd hc.1 (not_lt.mpr hbp)
      simp [h1]
    rw [List.foldl_cons, List.foldl_cons, hstep]
    by_cases h2 : p.price < b.price ∧ p.distance < b.distance + 2
    · have hsp : bestStepRuleB (some b) p = some p := by simp [bestStepRuleB, h2]
      rw [hsp]
      exact ih p hp hps
    · have hsb : bestStepRuleB (some b) p = some b := by simp [bestStepRuleB, h2]
      rw [hsb]
      exact ih b (fun q hq => le_trans hbp (hp q hq)) hps

/-- C3: on every list already sorted ascending by distance — which the
candidate list of the search always is — the two-rule selection picks the
same winner as the rule-(b)-only fold: with exact arithmetic a later
candidate can never be strictly closer, so rule (a) never fires. -/
theorem pickBest_ruleB_of_sorted (l : List Pharmacy)
    (hs : l.Pairwise (fun a b => a.distance ≤ b.distance)) :
    pickBest l = pickBestRuleB l := by
  cases l with
  | nil => rfl
  | cons p ps =>
    unfold pickBest pickBestRuleB
    rw [List.foldl_cons, List.foldl_cons]
    have h0 : bestStep none p = some p := rfl
    have h0b : bestStepRuleB none p = some p := rfl
    rw [h0, h0b]
    rcases List.pairwise_cons.mp hs with ⟨hp, hps⟩
    exact foldl_bestStep_ruleB ps p hp hps

theorem pickBest_ruleB_of_sorted_witness :
    ([⟨21, "A", "", "", 0, 0, 1, 50, "per strip", StockStatus.InStock, false⟩,
      ⟨22, "B", "", "", 0, 0, 3 / 2, 40, "per strip", StockStatus.InStock, false⟩,
      ⟨30, "C", "", "", 0, 0, 5, 100, "per strip", StockStatus.InStock, false⟩] :
        List Pharmacy).Pairwise (fun a b => a.distance ≤ b.distance) ∧
    pickBest [⟨21, "A", "", "", 0, 0, 1, 50, "per strip", StockStatus.InStock, false⟩,
      ⟨22, "B", "", "", 0, 0, 3 / 2, 40, "per strip", StockStatus.InStock, false⟩,
      ⟨30, "C", "", "", 0, 0, 5, 100, "per strip", StockStatus.InStock, false⟩] =
    pickBestRuleB [⟨21, "A", "", "", 0, 0, 1, 50, "per strip", StockStatus.InStock, false⟩,
      ⟨22, "B", "", "", 0, 0, 3 / 2, 40, "per strip", StockStatus.InStock, false⟩,
      ⟨30, "C", "", "", 0, 0, 5, 100, "per strip", StockStatus.InStock, false⟩] :=
  ⟨by decide, pickBest_ruleB_of_sorted _ (by decide)⟩

/-- C10: `haversineDistance` is a pure function of its two coordinates built
from the haversine formula with Earth radius 6371 km; it vanishes on equal
coordinates and is symmetric in its two arguments. -/
theorem haversineDistance_zero_and_symm :
    (∀ a : GeoPoint, haversineDistance a a = 0) ∧
    (∀ a b : GeoPoint, haversineDistance a b = haversineDistance b a) := by
  constructor
  · intro p
    have h1 : (p.lat - p.lat) * Real.pi / 180 / 2 = 0 := by ring
    have h2 : (p.lon - p.lon) * Real.pi / 180 / 2 = 0 := by ring
    simp only [haversineDistance, h1, h2, Real.sin_zero, mul_zero, zero_mul, add_zero,
      zero_add, sub_zero, Real.sqrt_zero, Real.sqrt_one]
    have h3 : atan2 0 1 = 0 := by
      simp [atan2, Real.arctan_zero]
    rw [h3]
    ring
  · intro a b
    have hlat : (a.lat - b.lat) * Real.pi / 180 / 2 =
        -((b.lat - a.lat) * Real.pi / 180 / 2) := by ring
    have hlon : (a.lon - b.lon) * Real.pi / 180 / 2 =
        -((b.lon - a.lon) * Real.pi / 180 / 2) := by ring
    have hA : Real.sin ((b.lat - a.lat) * Real.pi / 180 / 2) *
          Real.sin ((b.lat - a.lat) * Real.pi / 180 / 2) +
        Real.cos (a.lat * Real.pi / 180) * Real.cos (b.lat * Real.pi / 180) *
        Real.sin ((b.lon - a.lon) * Real.pi / 180 / 2) *
        Real.sin ((b.lon - a.lon) * Real.pi / 180 / 2) =
        Real.sin ((a.lat - b.lat) * Real.pi / 180 / 2) *
          Real.sin ((a.lat - b.lat) * Real.pi / 180 / 2) +
        Real.cos (b.lat * Real.pi / 180) * Real.cos (a.lat * Real.pi / 180) *
        Real.sin ((a.lon - b.lon) * Real.pi / 180 / 2) *
        Real.sin ((a.lon - b.lon) * Real.pi / 180 / 2) := by
      rw [hlat, hlon, Real.sin_neg, Real.sin_neg]
      ring
    simp only [haversineDistance]
    rw [hA]
